import Mathlib

/-!
# jq-live: verification of the interactive display engine

A shallow embedding of the jq-live terminal front-end (Go sources
`main.go`, `ui/ui.go`, `json/shell.go`, `json/json.go`) together with
proofs about the spec's claims on the action-dispatch loop, the input
buffer state machine, the grid renderer and the event-polling loop.

Modelling conventions:
* Go byte strings are `List Nat` (each element a byte value);
* runes (Unicode code points) are `Nat`;
* the evaluator collaborator (`jq` via `Shell.Process`) is an opaque
  deterministic function `Eval`; a `none` result models the error case;
* the terminal cell buffer owned by the termbox library is a `Grid`
  structure (width, height, and a cell function); cell attributes
  (fg/bg colors) are constant in the source (`ColorDefault`) and are
  omitted; cursor position is not part of the cell buffer;
* writes to the debug sink are recorded as abstract `DebugEntry`
  tokens appended to a log when the sink is present; the sink itself
  (an `io.WriteCloser`) has no other observable behaviour;
* `os.Exit` / `log.Fatalf` are modelled by a `Status` field of the
  session: once the status leaves `running`, the dispatch loop stops.
-/

namespace JqLive

/-! ## json/shell.go: the Shell processor (evaluator options) -/

/-- The `Shell` processor state from `json/shell.go`: the two evaluator
option flags.  (The `Debug io.Writer` field carries no state that the
claims observe and is modelled at the session level.) -/
structure Shell where
  compact : Bool
  raw : Bool
deriving DecidableEq, Repr

/-- Function `Shell.ToggleCompact` from `json/shell.go` lines 84-88: flips the
internal `compact` option (`sh.compact = !sh.compact`). -/
def Shell.ToggleCompact (sh : Shell) : Shell :=
  { sh with compact := !sh.compact }

/-- Function `Shell.ToggleRaw` from `json/shell.go` lines 90-94.  Note the body of
the Go function is `sh.compact = !sh.compact`: it flips the `compact`
field, not `raw`, although its doc comment says it flips `raw`. -/
def Shell.ToggleRaw (sh : Shell) : Shell :=
  { sh with compact := !sh.compact }

/-! ## UTF-8 encoding and decoding, as performed by the Go runtime

`UpdateInput` appends `string(t.newInput)` to a byte string: the Go
conversion `string(r)` produces the UTF-8 encoding of the rune, with
surrogates and out-of-range values replaced by U+FFFD (`utf8.EncodeRune`
semantics).  `bufio.Reader.ReadRune` decodes one UTF-8 code point and
reports the number of bytes consumed, yielding `(U+FFFD, 1)` on any
invalid prefix (`utf8.DecodeRune` semantics). -/

/-- The UTF-8 encoding of U+FFFD (the replacement character). -/
def runeErrorBytes : List Nat := [0xEF, 0xBF, 0xBD]

/-- Go's `string(r)` / `utf8.EncodeRune`: UTF-8 encoding of a code point,
with surrogates and values above U+10FFFF encoded as U+FFFD.
Bit operations of the Go source are written with `/`, `%`, `+`
(e.g. `0xC0 | (c >> 6)` is `0xC0 + c / 64`), which coincide on the
stated ranges. -/
def utf8Encode (c : Nat) : List Nat :=
  if c < 0x80 then [c]
  else if c < 0x800 then [0xC0 + c / 64, 0x80 + c % 64]
  else if 0xD800 ≤ c ∧ c < 0xE000 then runeErrorBytes
  else if c < 0x10000 then
    [0xE0 + c / 4096, 0x80 + (c / 64) % 64, 0x80 + c % 64]
  else if c < 0x110000 then
    [0xF0 + c / 262144, 0x80 + (c / 4096) % 64, 0x80 + (c / 64) % 64,
     0x80 + c % 64]
  else runeErrorBytes

/-- Lower bound accepted for the second byte of a 3-byte sequence
(`utf8.acceptRanges`): 0xA0 after a 0xE0 leader, else 0x80. -/
def accept3lo (b0 : Nat) : Nat := if b0 = 0xE0 then 0xA0 else 0x80

/-- Upper bound accepted for the second byte of a 3-byte sequence:
0x9F after a 0xED leader (excluding surrogates), else 0xBF. -/
def accept3hi (b0 : Nat) : Nat := if b0 = 0xED then 0x9F else 0xBF

/-- Lower bound accepted for the second byte of a 4-byte sequence:
0x90 after a 0xF0 leader, else 0x80. -/
def accept4lo (b0 : Nat) : Nat := if b0 = 0xF0 then 0x90 else 0x80

/-- Upper bound accepted for the second byte of a 4-byte sequence:
0x8F after a 0xF4 leader (capping at U+10FFFF), else 0xBF. -/
def accept4hi (b0 : Nat) : Nat := if b0 = 0xF4 then 0x8F else 0xBF

/-- Go's `utf8.DecodeRune` as used by `bufio.Reader.ReadRune`: returns the
first rune of the byte list and the number of bytes it occupies; any
invalid or truncated encoding consumes one byte and yields U+FFFD.
(The empty-list case is never reached by the render loops, which stop
at end of input first.) -/
def decodeRune : List Nat → Nat × Nat
  | [] => (0xFFFD, 0)
  | b0 :: rest =>
    if b0 < 0x80 then (b0, 1)
    else if b0 < 0xC2 then (0xFFFD, 1)
    else if b0 < 0xE0 then
      match rest with
      | b1 :: _ =>
        if 0x80 ≤ b1 ∧ b1 ≤ 0xBF then ((b0 - 0xC0) * 64 + (b1 - 0x80), 2)
        else (0xFFFD, 1)
      | [] => (0xFFFD, 1)
    else if b0 < 0xF0 then
      match rest with
      | b1 :: b2 :: _ =>
        if (accept3lo b0 ≤ b1 ∧ b1 ≤ accept3hi b0) ∧
            (0x80 ≤ b2 ∧ b2 ≤ 0xBF) then
          ((b0 - 0xE0) * 4096 + (b1 - 0x80) * 64 + (b2 - 0x80), 3)
        else (0xFFFD, 1)
      | _ => (0xFFFD, 1)
    else if b0 < 0xF5 then
      match rest with
      | b1 :: b2 :: b3 :: _ =>
        if (accept4lo b0 ≤ b1 ∧ b1 ≤ accept4hi b0) ∧
            (0x80 ≤ b2 ∧ b2 ≤ 0xBF) ∧ (0x80 ≤ b3 ∧ b3 ≤ 0xBF) then
          ((b0 - 0xF0) * 262144 + (b1 - 0x80) * 4096 + (b2 - 0x80) * 64 +
            (b3 - 0x80), 4)
        else (0xFFFD, 1)
      | _ => (0xFFFD, 1)
    else (0xFFFD, 1)

/-- A valid Unicode scalar value: the ranges on which UTF-8 encoding is
injective and round-trips through decoding. -/
def ValidRune (c : Nat) : Prop :=
  c < 0xD800 ∨ (0xE000 ≤ c ∧ c < 0x110000)

instance (c : Nat) : Decidable (ValidRune c) := by
  unfold ValidRune; infer_instance

/-! ## ui/ui.go: the Termbox input state -/

/-- The mutable fields of the `Termbox` struct from `ui/ui.go` that the
input state machine reads and writes.  `Input` and `SavePath` are Go
byte strings; `newInput` is the one-slot staging register for the most
recently classified character (0 meaning empty, as in the Go zero
value). -/
structure Termbox where
  Input : List Nat
  SaveInputMode : Bool
  SavePath : List Nat
  dirtyInput : Bool
  newInput : Nat
deriving DecidableEq, Repr

/-- Function `Termbox.UpdateInput` (`ui/ui.go` lines 66-73): if a character is
staged, append its UTF-8 encoding to `Input` (Go
`fmt.Sprintf("%s%s", t.Input, string(t.newInput))`), clear the stage,
mark the input dirty; otherwise do nothing. -/
def Termbox.UpdateInput (t : Termbox) : Termbox :=
  if t.newInput ≠ 0 then
    { t with Input := t.Input ++ utf8Encode t.newInput,
             newInput := 0, dirtyInput := true }
  else t

/-- Function `Termbox.UpdateInputBackspace` (`ui/ui.go` lines 75-83): a no-op on
the empty buffer, otherwise `t.Input = t.Input[0 : len(t.Input)-1]`,
which removes exactly one trailing BYTE of the byte string. -/
def Termbox.UpdateInputBackspace (t : Termbox) : Termbox :=
  if t.Input.length = 0 then t
  else { t with Input := t.Input.dropLast, dirtyInput := true }

/-- Function `Termbox.UpdateSaveInput` (`ui/ui.go` lines 85-92): the `SavePath`
analogue of `UpdateInput`. -/
def Termbox.UpdateSaveInput (t : Termbox) : Termbox :=
  if t.newInput ≠ 0 then
    { t with SavePath := t.SavePath ++ utf8Encode t.newInput,
             newInput := 0, dirtyInput := true }
  else t

/-- Function `Termbox.UpdateSaveInputBackspace` (`ui/ui.go` lines 94-102): the
`SavePath` analogue of `UpdateInputBackspace` (again one BYTE). -/
def Termbox.UpdateSaveInputBackspace (t : Termbox) : Termbox :=
  if t.SavePath.length = 0 then t
  else { t with SavePath := t.SavePath.dropLast, dirtyInput := true }

/-! ## The termbox cell buffer (the Grid) -/

/-- The termbox back buffer: a `w × h` matrix of cells.  `cells y x` is
the rune stored at row `y`, column `x`; coordinates outside the matrix
are phantom (SetCell ignores them, matching termbox's bounds check). -/
structure Grid where
  w : Nat
  h : Nat
  cells : Nat → Nat → Nat

/-- Primitive `termbox.SetCell(x, y, ch, fg, bg)`: writes `ch` at column `x`,
row `y` when in bounds, and is a no-op otherwise (termbox checks the
coordinates against the buffer size). -/
def Grid.SetCell (g : Grid) (x y : Nat) (ch : Nat) : Grid :=
  if x < g.w ∧ y < g.h then
    { g with cells := fun y' x' => if y' = y ∧ x' = x then ch else g.cells y' x' }
  else g

/-- The rune-writing loop shared by `RenderInput`, `RenderFilePrompt`
and the per-row loop of `RenderResults` (`ui/ui.go`): repeatedly
`ReadRune`, `SetCell` at the current column, and advance the column by
the rune's byte width, until the reader is exhausted.  One step of
`ReadRune` always consumes at least one byte, so `(b :: rest).drop sz`
is written `rest.drop (sz - 1)` to make the recursion well-founded by
the list length alone; the two coincide for every `sz ≥ 1`. -/
def renderLine (g : Grid) (y xPos : Nat) (bs : List Nat) : Grid :=
  match bs with
  | [] => g
  | b :: rest =>
    let d := decodeRune (b :: rest)
    renderLine (g.SetCell xPos y d.1) y (xPos + d.2) (rest.drop (d.2 - 1))
termination_by bs.length
decreasing_by
  simp only [List.length_drop, List.length_cons]
  omega

/-- The column-indexed write performed by `renderLine` starting at
column `xPos` on byte list `bs`: the rune written at column `x'`, if
any.  Writes occur at strictly increasing columns, so the first match
is the only one. -/
def lineWriteAt (w x' : Nat) (xPos : Nat) (bs : List Nat) : Option Nat :=
  match bs with
  | [] => none
  | b :: rest =>
    let d := decodeRune (b :: rest)
    if x' = xPos ∧ xPos < w then some d.1
    else lineWriteAt w x' (xPos + d.2) (rest.drop (d.2 - 1))
termination_by bs.length
decreasing_by
  simp only [List.length_drop, List.length_cons]
  omega

/-- The row loop of `RenderResults`, reading rows with
`bufio.Reader.ReadBytes('\n')`: split the byte stream into
newline-terminated rows, each row including its terminating newline
byte; a trailing row with no newline is dropped, because `ReadBytes`
returns it together with an `io.EOF` error and the loop breaks before
rendering it.  `acc` is the partial row accumulated so far. -/
def splitLinesAux (acc : List Nat) : List Nat → List (List Nat)
  | [] => []
  | b :: bs =>
    if b = 10 then (acc ++ [10]) :: splitLinesAux [] bs
    else splitLinesAux (acc ++ [b]) bs

def splitLines (bs : List Nat) : List (List Nat) :=
  splitLinesAux [] bs

/-- The row-clear loop at the top of `RenderResults` (`ui/ui.go` lines
269-274): `for y := 1; y < h; y++ for x := 0; x < w; x++ SetCell(x,y,0)`. -/
def clearRow (g : Grid) (y : Nat) : Grid :=
  (List.range g.w).foldl (fun a x => a.SetCell x y 0) g

def clearBelow (g : Grid) : Grid :=
  (List.range' 1 (g.h - 1)).foldl clearRow g

/-- The per-row write loop of `RenderResults` applied to the list of
rows, starting at row `y` and bumping `yPos` after each row. -/
def renderRows (g : Grid) (y : Nat) : List (List Nat) → Grid
  | [] => g
  | row :: rest => renderRows (renderLine g y 0 row) (y + 1) rest

/-- Function `Termbox.RenderResults` (`ui/ui.go` lines 254-314) acting on the
termbox cell buffer: clear every cell below row 0, then write the
newline-terminated rows of the byte stream starting at row 1, each rune
at the column given by the running byte offset.  (`Flush` transfers the
buffer to the terminal and does not change it.) -/
def Termbox.RenderResults (g : Grid) (data : List Nat) : Grid :=
  renderRows (clearBelow g) 1 (splitLines data)

/-- Function `Termbox.RenderInput` (`ui/ui.go` lines 187-217) acting on the cell
buffer: write the runes of `Input` on row 0 advancing by byte width,
then clear row 0 from column `len(t.Input)` (bytes) up to the grid
width.  (Cursor placement is not part of the cell buffer.) -/
def Termbox.RenderInput (g : Grid) (input : List Nat) : Grid :=
  let g1 := renderLine g 0 0 input
  (List.range' input.length (g1.w - input.length)).foldl
    (fun a x => a.SetCell x 0 0) g1

/-- The bytes of the fixed prompt label `"save to: "`. -/
def filePromptBytes : List Nat := [115, 97, 118, 101, 32, 116, 111, 58, 32]

/-- Function `Termbox.RenderFilePrompt` (`ui/ui.go` lines 220-251) acting on the
cell buffer: nothing unless in save mode; otherwise clear row 0 to
spaces and write `"save to: " + SavePath` on row 0. -/
def Termbox.RenderFilePrompt (g : Grid) (t : Termbox) : Grid :=
  if !t.SaveInputMode then g
  else
    let g1 := (List.range g.w).foldl (fun a x => a.SetCell x 0 32) g
    renderLine g1 0 0 (filePromptBytes ++ t.SavePath)

/-! ## The Action set and the event-polling goroutine (`ui/ui.go`) -/

/-- The closed `Action` set from `ui/ui.go` lines 104-120. -/
inductive Action
  | Exit
  | Input
  | InputBackspace
  | Print
  | SaveInput
  | SavePrompt
  | SavePromptBackspace
  | SaveSubmit
  | Submit
  | ToggleCompact
  | ToggleRaw
deriving DecidableEq, Repr

/-- A termbox key event: the special-key code and the character rune
(exactly one of which is nonzero for real termbox events; the model
does not assume this). -/
structure KeyEvent where
  Key : Nat
  Ch : Nat
deriving DecidableEq, Repr

/-- Diagnostic lines written to the debug sink, abstracted to tokens
that record which `Fprintf` call site fired and the dynamic byte-string
arguments the claims can observe. -/
inductive DebugEntry
  | parseError
  | programWas (p : List Nat)
  | submittingProgram (p : List Nat)
  | eventsBufferFailed
  | keyPressed (ch : Nat)
deriving DecidableEq, Repr

/-- The key-classification switch inside the events goroutine
(`ui/ui.go` lines 141-178): given the current save mode and the staging
register, an `EventKey` event yields an updated staging register, at
most one emitted action, and the debug entries written.  Key constants
are termbox's: Esc 0x1B, CtrlC 0x03, CtrlD 0x04, CtrlE 0x05, CtrlP
0x10, CtrlR 0x12, CtrlS 0x13, Enter 0x0D, Backspace 0x08, Backspace2
0x7F, Space 0x20. -/
def classifyKey (saveMode : Bool) (newInput : Nat) (ev : KeyEvent) :
    Nat × List Action × List DebugEntry :=
  if ev.Key = 0x1B ∨ ev.Key = 0x03 ∨ ev.Key = 0x04 then
    (newInput, [Action.Exit], [])
  else if ev.Key = 0x05 then (newInput, [Action.ToggleCompact], [])
  else if ev.Key = 0x10 then (newInput, [Action.Print], [])
  else if ev.Key = 0x12 then (newInput, [Action.ToggleRaw], [])
  else if ev.Key = 0x13 then (newInput, [Action.SavePrompt], [])
  else if ev.Key = 0x0D then
    (newInput, [if saveMode then Action.SaveSubmit else Action.Submit], [])
  else if ev.Key = 0x08 ∨ ev.Key = 0x7F then
    (newInput,
     [if saveMode then Action.SavePromptBackspace else Action.InputBackspace],
     [])
  else if ev.Key = 0x20 then (32, [Action.Input], [])
  else if ev.Ch ≠ 0 then
    (ev.Ch, [if saveMode then Action.SaveInput else Action.Input],
     [DebugEntry.keyPressed ev.Ch])
  else (newInput, [], [DebugEntry.keyPressed ev.Ch])

/-- One result of `termbox.PollEvent()`: a key event, an event of some
other type (resize, mouse, ...), or a panic raised while the driver
decodes its event buffer (the transient fault of the spec). -/
inductive PollItem
  | key (ev : KeyEvent)
  | nonKey
  | fault
deriving DecidableEq, Repr

/-- The events goroutine from `Termbox.Events` (`ui/ui.go` lines
123-184), run over a finite prefix of the poll stream.  The `defer
recover` handler is installed OUTSIDE the `for` loop, so in Go a panic
raised by `termbox.PollEvent` unwinds the loop, the handler logs the
diagnostic (when the debug sink is present), and the goroutine then
RETURNS: no further poll item is ever processed.  Results: the emitted
actions in order, the debug entries written, and whether the goroutine
terminated before exhausting the stream. -/
def eventsLoop (debugPresent saveMode : Bool) (newInput : Nat) :
    List PollItem → List Action × List DebugEntry × Bool
  | [] => ([], [], false)
  | PollItem.fault :: _ =>
    ([], if debugPresent then [DebugEntry.eventsBufferFailed] else [], true)
  | PollItem.nonKey :: rest => eventsLoop debugPresent saveMode newInput rest
  | PollItem.key ev :: rest =>
    let c := classifyKey saveMode newInput ev
    let r := eventsLoop debugPresent saveMode c.1 rest
    (c.2.1 ++ r.1, (if debugPresent then c.2.2 else []) ++ r.2.1, r.2.2)

/-! ## main.go: the session and the dispatch loop -/

/-- The evaluator collaborator: document bytes, program bytes, and the
two option flags, to either a result byte stream or an error.  Modelling
it as a function makes repeated calls with identical arguments yield
identical results (the determinism the spec assumes). -/
def Eval : Type := List Nat → List Nat → Bool → Bool → Option (List Nat)

/-- One recorded evaluator invocation (the arguments given to
`processor.Process`: the reader over `jsonData`, the program, and the
option flags read from the Shell). -/
structure EvalCall where
  doc : List Nat
  program : List Nat
  compact : Bool
  raw : Bool
deriving DecidableEq, Repr

/-- Where the process stands: still in the dispatch loop, exited with a
code (`os.Exit`), or aborted by `log.Fatalf` (which exits nonzero). -/
inductive Status
  | running
  | exited (code : Nat)
  | fatal
deriving DecidableEq, Repr

/-- External conditions of the `SaveSubmit` path: whether
`os.OpenFile(cwd/savePath)` succeeds and whether `io.Copy` to the file
succeeds. -/
structure Ext where
  fileOpenOk : Bool
  writeOk : Bool
deriving DecidableEq, Repr

/-- The state owned by `main`: the original document bytes `jsonData`
(read once at startup), the Shell processor, the Termbox input state,
the termbox cell buffer, the optional debug sink (presence flag plus
the entries written), bytes copied to stdout by `Print`, bytes written
to the save file by `SaveSubmit`, the process status, and a ghost trace
of every evaluator invocation made. -/
structure Session where
  doc : List Nat
  shell : Shell
  tb : Termbox
  grid : Grid
  debug : Bool
  debugLog : List DebugEntry
  stdout : List Nat
  savedFile : Option (List Nat)
  status : Status
  calls : List EvalCall

/-- Append debug entries when the sink is present (`debugFile != nil`);
writes to an absent sink are no-ops (an `Fprintf` to a nil `*os.File`
only returns an ignored error). -/
def Session.logIf (s : Session) (es : List DebugEntry) : List DebugEntry :=
  if s.debug then s.debugLog ++ es else s.debugLog

/-- Call `processor.Process(bytes.NewReader(jsonData), display.Input)`: call
the evaluator on the original document, the current program and the
current option flags, recording the invocation in the ghost trace. -/
def processCall (eval : Eval) (s : Session) : Option (List Nat) × Session :=
  (eval s.doc s.tb.Input s.shell.compact s.shell.raw,
   { s with calls :=
      s.calls ++ [⟨s.doc, s.tb.Input, s.shell.compact, s.shell.raw⟩] })

/-- The debug entries of the shared parse-error branch
(`fmt.Fprintf(debugFile, "parse error: ...")` and `"program: ..."`). -/
def parseErrEntries (s : Session) : List DebugEntry :=
  [DebugEntry.parseError, DebugEntry.programWas s.tb.Input]

/-- One iteration of the dispatch loop in `main` (`main.go` lines
108-227): the `switch action := <-display.Events(); action` body.
(`os.Exit` and `log.Fatalf` end the process, so the loop runner below
dispatches only while the status is still `running`.) -/
def dispatchStep (eval : Eval) (ext : Ext) (s : Session) (a : Action) :
    Session :=
  match a with
  | Action.InputBackspace =>
    let tb := s.tb.UpdateInputBackspace
    { s with tb := tb, grid := Termbox.RenderInput s.grid tb.Input }
  | Action.Exit => { s with status := Status.exited 0 }
  | Action.Input =>
    let tb := s.tb.UpdateInput
    { s with tb := tb, grid := Termbox.RenderInput s.grid tb.Input }
  | Action.Print =>
    let pr := processCall eval s
    match pr.1 with
    | none =>
      { pr.2 with status := Status.exited 1,
                  debugLog := pr.2.logIf (parseErrEntries pr.2) }
    | some out =>
      { pr.2 with status := Status.exited 0, stdout := pr.2.stdout ++ out }
  | Action.SaveInput =>
    let tb := s.tb.UpdateSaveInput
    { s with tb := tb, grid := Termbox.RenderFilePrompt s.grid tb }
  | Action.SavePrompt =>
    let tb := { s.tb with SaveInputMode := true }
    { s with tb := tb, grid := Termbox.RenderFilePrompt s.grid tb }
  | Action.SavePromptBackspace =>
    let tb := s.tb.UpdateSaveInputBackspace
    { s with tb := tb, grid := Termbox.RenderFilePrompt s.grid tb }
  | Action.SaveSubmit =>
    if !ext.fileOpenOk then { s with status := Status.fatal }
    else
      let pr := processCall eval s
      match pr.1 with
      | none => { pr.2 with debugLog := pr.2.logIf (parseErrEntries pr.2) }
      | some out =>
        if ext.writeOk then
          { pr.2 with status := Status.exited 0, savedFile := some out }
        else { pr.2 with status := Status.fatal }
  | Action.ToggleCompact =>
    let s0 := { s with shell := s.shell.ToggleCompact }
    let pr := processCall eval s0
    match pr.1 with
    | none => { pr.2 with debugLog := pr.2.logIf (parseErrEntries pr.2) }
    | some out => { pr.2 with grid := Termbox.RenderResults pr.2.grid out }
  | Action.ToggleRaw =>
    let s0 := { s with shell := s.shell.ToggleRaw }
    let pr := processCall eval s0
    match pr.1 with
    | none => { pr.2 with debugLog := pr.2.logIf (parseErrEntries pr.2) }
    | some out => { pr.2 with grid := Termbox.RenderResults pr.2.grid out }
  | Action.Submit =>
    let sA :=
      { s with debugLog := s.logIf [DebugEntry.submittingProgram s.tb.Input] }
    let pr := processCall eval sA
    match pr.1 with
    | none => { pr.2 with debugLog := pr.2.logIf (parseErrEntries pr.2) }
    | some out => { pr.2 with grid := Termbox.RenderResults pr.2.grid out }

/-- The dispatch loop run over a finite list of delivered actions: an
action is processed only while the process is still in the loop. -/
def runActions (eval : Eval) (ext : Ext) (s : Session) (as : List Action) :
    Session :=
  as.foldl
    (fun t a =>
      if t.status = Status.running then dispatchStep eval ext t a else t) s

/-- The whole engine run over a finite list of key events, with the
synchronous-rendezvous interleaving of the spec: each key event is
classified by the events goroutine (reading the current save mode and
staging register, staging before signalling) and the resulting actions
are consumed by the dispatch loop before the next poll. -/
def uiRun (eval : Eval) (ext : Ext) : Session → List KeyEvent → Session
  | s, [] => s
  | s, ev :: rest =>
    if s.status ≠ Status.running then s
    else
      let c := classifyKey s.tb.SaveInputMode s.tb.newInput ev
      let s1 := { s with tb := { s.tb with newInput := c.1 },
                         debugLog := s.logIf c.2.2 }
      uiRun eval ext (runActions eval ext s1 c.2.1) rest

/-- Session construction in `main` (`main.go` lines 84-103): read
`jsonData` once, run the first `Process` (a `none` result is the fatal
`log.Fatalf("unable to process JSON")` path before the loop starts),
start the display with the initial program, render the input row and
the initial results. -/
def startSession (eval : Eval) (doc prog : List Nat)
    (compact raw debug : Bool) (w h : Nat) : Option Session :=
  match eval doc prog compact raw with
  | none => none
  | some out =>
    some
      { doc := doc
        shell := ⟨compact, raw⟩
        tb := ⟨prog, false, [], true, 0⟩
        grid := Termbox.RenderResults
          (Termbox.RenderInput ⟨w, h, fun _ _ => 0⟩ prog) out
        debug := debug
        debugLog := []
        stdout := []
        savedFile := none
        status := Status.running
        calls := [⟨doc, prog, compact, raw⟩] }

/-! ## Auxiliary notions used by the claim statements -/

/-- A byte string that never contains the NUL byte. -/
def NoNul (bs : List Nat) : Prop := ∀ b ∈ bs, b ≠ 0

instance (bs : List Nat) : Decidable (NoNul bs) := by
  unfold NoNul; infer_instance

/-- UTF-8 encoding of a whole rune sequence. -/
def utf8EncodeAll : List Nat → List Nat
  | [] => []
  | c :: cs => utf8Encode c ++ utf8EncodeAll cs

/-- The byte stream holding the given rune lines, each line terminated
by a newline byte (the shape of line-oriented evaluator output). -/
def streamOfLines : List (List Nat) → List Nat
  | [] => []
  | l :: ls => utf8EncodeAll l ++ 10 :: streamOfLines ls

/-- Modelled from the spec: the backspace the spec describes, removing
exactly one trailing Unicode code point (a multi-byte character as a
single unit).  Used only to compare against the byte-level backspace of
the source (`Termbox.UpdateInputBackspace`). -/
def dropLastCodePoint (bs : List Nat) : List Nat :=
  let rev := bs.reverse
  ((rev.dropWhile fun b => decide (0x80 ≤ b) && decide (b < 0xC0)).drop
    1).reverse

/-! ## Concrete fixtures for witnesses and counterexamples -/

/-- An evaluator that always fails. -/
def evalNone : Eval := fun _ _ _ _ => none

/-- An evaluator that always returns the two bytes `"1\n"`. -/
def evalOne : Eval := fun _ _ _ _ => some [49, 10]

/-- External conditions with file open and write both succeeding. -/
def extOk : Ext := ⟨true, true⟩

/-- A 10 × 5 grid of cleared cells. -/
def grid0 : Grid := ⟨10, 5, fun _ _ => 0⟩

/-- The document bytes of the running example. -/
def doc0 : List Nat := [123, 34, 97, 34, 58, 49, 125]

/-- Input state with program `"."`, program mode, empty save path. -/
def tb0 : Termbox := ⟨[46], false, [], true, 0⟩

/-- A session in program mode with program `"."`, both options off,
debug sink present. -/
def session0 : Session :=
  ⟨doc0, ⟨false, false⟩, tb0, grid0, true, [], [], none, Status.running, []⟩

/-- Input state in save mode with one character `"x"` already typed
into the save path. -/
def tbSave : Termbox := ⟨[46], true, [120], false, 0⟩

/-- A session in save mode with `SavePath = "x"`. -/
def sessionSave : Session := { session0 with tb := tbSave }

/-- Input state with the character U+00E9 (a two-byte code point)
staged and an empty program buffer. -/
def tbStage : Termbox := ⟨[], false, [], false, 0xE9⟩

/-- A session whose results region already shows the rendering of the
evaluator output `"1\n"` for the current program and options. -/
def sessionR : Session :=
  { session0 with grid := Termbox.RenderResults grid0 [49, 10] }

/-- The session produced by `startSession` with the evaluator `evalOne`,
document `doc0`, program `"."`, both options off, debug sink present,
on a 10 × 5 terminal. -/
def sessionStart : Session :=
  { doc := doc0
    shell := ⟨false, false⟩
    tb := ⟨[46], false, [], true, 0⟩
    grid := Termbox.RenderResults
      (Termbox.RenderInput ⟨10, 5, fun _ _ => 0⟩ [46]) [49, 10]
    debug := true
    debugLog := []
    stdout := []
    savedFile := none
    status := Status.running
    calls := [⟨doc0, [46], false, false⟩] }

/-! # Theorems

Helper lemmas first, then one theorem per claim (with witnesses and
counterexamples as separate closed theorems). -/

@[simp] theorem Grid.SetCell_w (g : Grid) (x y ch : Nat) :
    (g.SetCell x y ch).w = g.w := by
  unfold Grid.SetCell; split <;> rfl

@[simp] theorem Grid.SetCell_h (g : Grid) (x y ch : Nat) :
    (g.SetCell x y ch).h = g.h := by
  unfold Grid.SetCell; split <;> rfl

theorem Grid.SetCell_cells (g : Grid) (x y ch y' x' : Nat) :
    (g.SetCell x y ch).cells y' x' =
      if y' = y ∧ x' = x ∧ x < g.w ∧ y < g.h then ch else g.cells y' x' := by
  unfold Grid.SetCell
  split
  case isTrue hb =>
    by_cases hy : y' = y <;> by_cases hx : x' = x <;> simp [hy, hx, hb.1, hb.2]
  case isFalse hb =>
    have : ¬(y' = y ∧ x' = x ∧ x < g.w ∧ y < g.h) := by tauto
    simp [this]

/-- Number of bytes consumed by one `ReadRune` step is positive on
nonempty input. -/
theorem decodeRune_size_pos (b : Nat) (rest : List Nat) :
    1 ≤ (decodeRune (b :: rest)).2 := by
  unfold decodeRune
  repeat' split
  all_goals simp_all

/-- C1. The claim says `ToggleRaw` flips the `raw` option and leaves
`compact` unchanged.  The source (`json/shell.go` lines 90-94) does the
opposite: the body of `Shell.ToggleRaw` is `sh.compact = !sh.compact`,
contradicting its own doc comment.  Starting from both options off,
processing a `ToggleRaw` action leaves `raw` at `false` and flips
`compact`, and the evaluator re-invocation is made with
`compact = true, raw = false`. -/
theorem C1_toggleRaw_flips_compact_only :
    Shell.ToggleRaw ⟨false, false⟩ = ⟨true, false⟩ ∧
    (dispatchStep evalOne extOk session0 Action.ToggleRaw).shell.raw
      = false ∧
    (dispatchStep evalOne extOk session0 Action.ToggleRaw).shell.compact
      = true ∧
    (dispatchStep evalOne extOk session0 Action.ToggleRaw).calls
      = [⟨doc0, [46], true, false⟩] :=
  ⟨rfl, rfl, rfl, rfl⟩

/-- C2. The claim says a single event-decoding fault is caught, logged,
and polling then RESUMES.  In the source (`ui/ui.go` lines 123-184) the
`defer recover` handler sits outside the `for` loop, so the panic
unwinds the loop, the handler logs the diagnostic, and the goroutine
returns: the key event following the fault is never processed
(first conjunct: no actions are emitted and the loop terminates),
although on its own that Enter event would have produced `Submit`
(second conjunct). -/
theorem C2_fault_terminates_polling_loop :
    eventsLoop true false 0 [PollItem.fault, PollItem.key ⟨0x0D, 0⟩] =
      ([], [DebugEntry.eventsBufferFailed], true) ∧
    (eventsLoop true false 0 [PollItem.key ⟨0x0D, 0⟩]).1 =
      [Action.Submit] :=
  ⟨rfl, rfl⟩

/-- C3. The claim says a backspace removes exactly one trailing code
point, multi-byte characters as single units.  The source
(`ui/ui.go` lines 75-83) slices one BYTE: committing U+00E9 appends its
two-byte encoding `[0xC3, 0xA9]`, and the following backspace leaves
the lone byte `[0xC3]` (an invalid UTF-8 fragment), not the empty
buffer that removing one code point (third conjunct) would give. -/
theorem C3_backspace_removes_one_byte :
    (tbStage.UpdateInput).Input = [0xC3, 0xA9] ∧
    ((tbStage.UpdateInput).UpdateInputBackspace).Input = [0xC3] ∧
    dropLastCodePoint [0xC3, 0xA9] = [] := by
  refine ⟨by decide, by decide, by decide⟩

/-- C4. The claim says an evaluator error while handling `SaveSubmit`
aborts the process with nonzero status.  In the source (`main.go` lines
152-176) the error branch only writes to the debug sink and then falls
out of the `switch`: the dispatch loop keeps running (with the terminal
already released by `display.Quit()`).  Only the file-open and
file-write failures hit `log.Fatalf`. -/
theorem C4_saveSubmit_eval_error_keeps_running :
    (dispatchStep evalNone extOk session0 Action.SaveSubmit).status =
      Status.running ∧
    (dispatchStep evalNone extOk session0 Action.SaveSubmit).debugLog =
      [DebugEntry.parseError, DebugEntry.programWas [46]] :=
  ⟨rfl, rfl⟩

/-- C5. If the evaluator call made while handling `Submit` returns an
error, the handler only writes to the debug sink (`main.go` lines
211-225): the cell buffer (hence the results region), the program
buffer, the whole input state, the evaluator options and the process
status are all unchanged. -/
theorem C5_submit_error_preserves_state (eval : Eval) (ext : Ext)
    (s : Session)
    (h2 : eval s.doc s.tb.Input s.shell.compact s.shell.raw = none) :
    (dispatchStep eval ext s Action.Submit).grid = s.grid ∧
    (dispatchStep eval ext s Action.Submit).tb = s.tb ∧
    (dispatchStep eval ext s Action.Submit).shell = s.shell ∧
    (dispatchStep eval ext s Action.Submit).status = s.status := by
  simp [dispatchStep, processCall, h2]

/-- C5 witness: the failing evaluator on the concrete session. -/
theorem C5_witness :
    evalNone session0.doc session0.tb.Input session0.shell.compact
      session0.shell.raw = none ∧
    ((dispatchStep evalNone extOk session0 Action.Submit).grid =
        session0.grid ∧
      (dispatchStep evalNone extOk session0 Action.Submit).tb =
        session0.tb ∧
      (dispatchStep evalNone extOk session0 Action.Submit).shell =
        session0.shell ∧
      (dispatchStep evalNone extOk session0 Action.Submit).status =
        session0.status) :=
  ⟨rfl, C5_submit_error_preserves_state evalNone extOk session0 rfl⟩

/-! ### Characterization of the rune-writing loop -/

theorem renderLine_w (g : Grid) (y xPos : Nat) (bs : List Nat) :
    (renderLine g y xPos bs).w = g.w := by
  induction g, y, xPos, bs using renderLine.induct with
  | case1 g y xPos => rw [renderLine]
  | case2 g y xPos b rest d ih => rw [renderLine]; simp only [ih, Grid.SetCell_w]

theorem renderLine_h (g : Grid) (y xPos : Nat) (bs : List Nat) :
    (renderLine g y xPos bs).h = g.h := by
  induction g, y, xPos, bs using renderLine.induct with
  | case1 g y xPos => rw [renderLine]
  | case2 g y xPos b rest d ih => rw [renderLine]; simp only [ih, Grid.SetCell_h]

/-- Loop `renderLine` writes at columns at or beyond its starting column. -/
theorem lineWriteAt_none_of_lt (w x' : Nat) :
    ∀ (xPos : Nat) (bs : List Nat), x' < xPos →
      lineWriteAt w x' xPos bs = none := by
  intro xPos bs
  induction xPos, bs using lineWriteAt.induct w x' with
  | case1 xPos => intro _; rw [lineWriteAt]
  | case2 xPos b rest h =>
    intro hlt
    exact absurd h.1 (by omega)
  | case3 xPos b rest d h ih =>
    intro hlt
    rw [lineWriteAt]
    rw [if_neg h]
    have hd1 := decodeRune_size_pos b rest
    exact ih (by omega)

/-- Full cell-level characterization of the rune-writing loop: the
value at `(y', x')` is the rune written at column `x'` when the loop
writes row `y` inside the grid, otherwise the existing cell. -/
theorem renderLine_cells (g : Grid) (y xPos : Nat) (bs : List Nat)
    (y' x' : Nat) :
    (renderLine g y xPos bs).cells y' x' =
      if y' = y ∧ y < g.h then
        (lineWriteAt g.w x' xPos bs).getD (g.cells y' x')
      else g.cells y' x' := by
  induction g, y, xPos, bs using renderLine.induct with
  | case1 g y xPos =>
    rw [renderLine, lineWriteAt]
    simp only [Option.getD_none]
    split <;> rfl
  | case2 g y xPos b rest d ih =>
    have hd : d = decodeRune (b :: rest) := rfl
    have hd1 := decodeRune_size_pos b rest
    rw [renderLine, lineWriteAt]
    simp only [Grid.SetCell_w, Grid.SetCell_h] at ih
    rw [ih]
    by_cases hc : x' = xPos ∧ xPos < g.w
    · rw [if_pos hc]
      rw [lineWriteAt_none_of_lt g.w x'
        (xPos + (decodeRune (b :: rest)).2)
        (rest.drop ((decodeRune (b :: rest)).2 - 1))
        (by rw [hc.1]; omega)]
      simp only [Option.getD_none, Option.getD_some]
      by_cases hy : y' = y ∧ y < g.h
      · rw [if_pos hy, if_pos hy, Grid.SetCell_cells]
        rw [if_pos ⟨hy.1, hc.1, hc.2, hy.2⟩]
      · rw [if_neg hy, if_neg hy, Grid.SetCell_cells]
        rw [if_neg (by tauto :
          ¬(y' = y ∧ x' = xPos ∧ xPos < g.w ∧ y < g.h))]
    · rw [if_neg hc]
      have hset : (g.SetCell xPos y d.1).cells y' x' = g.cells y' x' := by
        rw [Grid.SetCell_cells]
        rw [if_neg (by tauto :
          ¬(y' = y ∧ x' = xPos ∧ xPos < g.w ∧ y < g.h))]
      rw [hset]

/-! ### Characterization of the clear loops and the row loop -/

theorem foldl_setcell_w (l : List Nat) (y ch : Nat) (g : Grid) :
    (l.foldl (fun a x => a.SetCell x y ch) g).w = g.w := by
  induction l generalizing g with
  | nil => rfl
  | cons b l ih => simp only [List.foldl_cons, ih, Grid.SetCell_w]

theorem foldl_setcell_h (l : List Nat) (y ch : Nat) (g : Grid) :
    (l.foldl (fun a x => a.SetCell x y ch) g).h = g.h := by
  induction l generalizing g with
  | nil => rfl
  | cons b l ih => simp only [List.foldl_cons, ih, Grid.SetCell_h]

/-- The inner column loop writing `ch` across row `y`. -/
theorem foldl_setcell_cells (y ch : Nat) :
    ∀ (n : Nat) (g : Grid) (y' x' : Nat),
      ((List.range n).foldl (fun a x => a.SetCell x y ch) g).cells y' x' =
        if y' = y ∧ x' < n ∧ x' < g.w ∧ y < g.h then ch
        else g.cells y' x' := by
  intro n
  induction n with
  | zero =>
    intro g y' x'
    rw [List.range_zero]
    rw [if_neg (by omega)]
    rfl
  | succ n ih =>
    intro g y' x'
    rw [List.range_succ, List.foldl_append, List.foldl_cons, List.foldl_nil]
    rw [Grid.SetCell_cells, foldl_setcell_w, foldl_setcell_h, ih]
    split_ifs <;> first | rfl | omega

theorem clearRow_w (g : Grid) (y : Nat) : (clearRow g y).w = g.w :=
  foldl_setcell_w _ _ _ _

theorem clearRow_h (g : Grid) (y : Nat) : (clearRow g y).h = g.h :=
  foldl_setcell_h _ _ _ _

theorem clearRow_cells (g : Grid) (y y' x' : Nat) :
    (clearRow g y).cells y' x' =
      if y' = y ∧ x' < g.w ∧ y < g.h then 0 else g.cells y' x' := by
  unfold clearRow
  rw [foldl_setcell_cells]
  split_ifs <;> first | rfl | omega

theorem foldl_clearRow_w (l : List Nat) (g : Grid) :
    (l.foldl clearRow g).w = g.w := by
  induction l generalizing g with
  | nil => rfl
  | cons a l ih => rw [List.foldl_cons, ih, clearRow_w]

theorem foldl_clearRow_h (l : List Nat) (g : Grid) :
    (l.foldl clearRow g).h = g.h := by
  induction l generalizing g with
  | nil => rfl
  | cons a l ih => rw [List.foldl_cons, ih, clearRow_h]

/-- The outer row loop of the clear phase over rows `s, ..., s+n-1`. -/
theorem foldl_clearRow_range'_cells :
    ∀ (n s : Nat) (g : Grid) (y' x' : Nat),
      (((List.range' s n).foldl clearRow g).cells y' x' =
        if s ≤ y' ∧ y' < s + n ∧ y' < g.h ∧ x' < g.w then 0
        else g.cells y' x') := by
  intro n
  induction n with
  | zero =>
    intro s g y' x'
    rw [if_neg (by omega)]
    rfl
  | succ n ih =>
    intro s g y' x'
    rw [List.range'_succ, List.foldl_cons, ih, clearRow_w, clearRow_h]
    rw [clearRow_cells]
    split_ifs <;> first | rfl | omega

theorem clearBelow_w (g : Grid) : (clearBelow g).w = g.w :=
  foldl_clearRow_w _ _

theorem clearBelow_h (g : Grid) : (clearBelow g).h = g.h :=
  foldl_clearRow_h _ _

/-- The clear phase of `RenderResults` zeroes every visible cell below
row 0 and touches nothing else. -/
theorem clearBelow_cells (g : Grid) (y x : Nat) :
    (clearBelow g).cells y x =
      if 1 ≤ y ∧ y < g.h ∧ x < g.w then 0 else g.cells y x := by
  unfold clearBelow
  rw [foldl_clearRow_range'_cells]
  split_ifs <;> first | rfl | omega

theorem renderRows_w :
    ∀ (rows : List (List Nat)) (g : Grid) (y : Nat),
      (renderRows g y rows).w = g.w := by
  intro rows
  induction rows with
  | nil => intro g y; rfl
  | cons row rest ih => intro g y; rw [renderRows, ih, renderLine_w]

theorem renderRows_h :
    ∀ (rows : List (List Nat)) (g : Grid) (y : Nat),
      (renderRows g y rows).h = g.h := by
  intro rows
  induction rows with
  | nil => intro g y; rfl
  | cons row rest ih => intro g y; rw [renderRows, ih, renderLine_h]

/-- Cell-level characterization of the row loop: row `y + i` shows the
writes of the `i`-th row byte list; rows outside `[y, y + rows.length)`
(and everything outside the visible grid) keep their prior contents. -/
theorem renderRows_cells :
    ∀ (rows : List (List Nat)) (g : Grid) (y y' x' : Nat),
      (renderRows g y rows).cells y' x' =
        if y ≤ y' ∧ y' < y + rows.length ∧ y' < g.h then
          (lineWriteAt g.w x' 0 (rows.getD (y' - y) [])).getD
            (g.cells y' x')
        else g.cells y' x' := by
  intro rows
  induction rows with
  | nil =>
    intro g y y' x'
    rw [if_neg (by simp only [List.length_nil]; omega)]
    rfl
  | cons row rest ih =>
    intro g y y' x'
    rw [renderRows, ih, renderLine_w, renderLine_h, renderLine_cells]
    by_cases h1 : y + 1 ≤ y' ∧ y' < y + 1 + rest.length ∧ y' < g.h
    · rw [if_pos h1]
      have hidx : y' - y = (y' - (y + 1)) + 1 := by omega
      have hget : (row :: rest).getD (y' - y) [] =
          rest.getD (y' - (y + 1)) [] := by
        rw [hidx]; rfl
      rw [if_pos (by simp only [List.length_cons]; omega :
        y ≤ y' ∧ y' < y + (row :: rest).length ∧ y' < g.h)]
      rw [hget]
      rw [if_neg (by omega : ¬(y' = y ∧ y < g.h))]
    · rw [if_neg h1]
      by_cases h2 : y' = y ∧ y < g.h
      · rw [if_pos h2]
        rw [if_pos (by simp only [List.length_cons]; omega :
          y ≤ y' ∧ y' < y + (row :: rest).length ∧ y' < g.h)]
        have hget : (row :: rest).getD (y' - y) [] = row := by
          have : y' - y = 0 := by omega
          rw [this]; rfl
        rw [hget]
      · rw [if_neg h2]
        rw [if_neg (by simp only [List.length_cons]; omega :
          ¬(y ≤ y' ∧ y' < y + (row :: rest).length ∧ y' < g.h))]

theorem RenderResults_w (g : Grid) (data : List Nat) :
    (Termbox.RenderResults g data).w = g.w := by
  unfold Termbox.RenderResults
  rw [renderRows_w, clearBelow_w]

theorem RenderResults_h (g : Grid) (data : List Nat) :
    (Termbox.RenderResults g data).h = g.h := by
  unfold Termbox.RenderResults
  rw [renderRows_h, clearBelow_h]

/-- Inside the visible results region (rows 1 and below), the cell
contents after `RenderResults` depend only on the grid dimensions and
the byte stream, never on the previous cell contents. -/
theorem RenderResults_cells_region (g : Grid) (data : List Nat)
    (y x : Nat) (hy1 : 1 ≤ y) (hyh : y < g.h) (hxw : x < g.w) :
    (Termbox.RenderResults g data).cells y x =
      if y < 1 + (splitLines data).length then
        (lineWriteAt g.w x 0 ((splitLines data).getD (y - 1) [])).getD 0
      else 0 := by
  unfold Termbox.RenderResults
  rw [renderRows_cells, clearBelow_w, clearBelow_h]
  have hcb : (clearBelow g).cells y x = 0 := by
    rw [clearBelow_cells, if_pos ⟨hy1, hyh, hxw⟩]
  rw [hcb]
  by_cases h1 : y < 1 + (splitLines data).length
  · rw [if_pos (show 1 ≤ y ∧ y < 1 + (splitLines data).length ∧ y < g.h
      from ⟨hy1, h1, hyh⟩), if_pos h1]
  · rw [if_neg (fun hC => h1 hC.2.1), if_neg h1]

theorem Shell.toggleCompact_compact (sh : Shell) :
    (sh.ToggleCompact).compact = !sh.compact := rfl

theorem Shell.toggleCompact_raw (sh : Shell) :
    (sh.ToggleCompact).raw = sh.raw := rfl

theorem Shell.toggleCompact_toggleCompact (sh : Shell) :
    sh.ToggleCompact.ToggleCompact = sh := by
  cases sh; simp [Shell.ToggleCompact]

/-- What one `ToggleCompact` dispatch does: flip the compact option,
leave document, input state and status alone, keep the grid dimensions,
and either leave the grid untouched (evaluator error) or replace it by
a render of the new output. -/
theorem toggleCompact_step (eval : Eval) (ext : Ext) (t : Session) :
    (dispatchStep eval ext t Action.ToggleCompact).doc = t.doc ∧
    (dispatchStep eval ext t Action.ToggleCompact).tb = t.tb ∧
    (dispatchStep eval ext t Action.ToggleCompact).status = t.status ∧
    (dispatchStep eval ext t Action.ToggleCompact).shell =
      t.shell.ToggleCompact ∧
    (dispatchStep eval ext t Action.ToggleCompact).grid.w = t.grid.w ∧
    (dispatchStep eval ext t Action.ToggleCompact).grid.h = t.grid.h ∧
    ((eval t.doc t.tb.Input (!t.shell.compact) t.shell.raw = none ∧
        (dispatchStep eval ext t Action.ToggleCompact).grid = t.grid) ∨
      (∃ out,
        eval t.doc t.tb.Input (!t.shell.compact) t.shell.raw = some out ∧
        (dispatchStep eval ext t Action.ToggleCompact).grid =
          Termbox.RenderResults t.grid out)) := by
  cases heval : eval t.doc t.tb.Input (!t.shell.compact) t.shell.raw with
  | none =>
    simp [dispatchStep, processCall, Shell.ToggleCompact, heval]
  | some out =>
    simp only [dispatchStep, processCall, Shell.ToggleCompact, heval]
    simp [RenderResults_w, RenderResults_h]

/-- C7. Two `ToggleCompact` dispatches in immediate succession restore
the original option values (and the whole Shell), leave the input state
and status alone, and — when the evaluator succeeds on the original
options and the results region currently shows a render of that output
— reproduce the results region byte for byte. -/
theorem C7_toggleCompact_twice_restores (eval : Eval) (ext : Ext)
    (s : Session) (g0 : Grid) (out0 : List Nat)
    (h1 : eval s.doc s.tb.Input s.shell.compact s.shell.raw = some out0)
    (hw : g0.w = s.grid.w) (hh : g0.h = s.grid.h)
    (h2 : ∀ y x, 1 ≤ y → y < s.grid.h → x < s.grid.w →
      s.grid.cells y x = (Termbox.RenderResults g0 out0).cells y x) :
    (dispatchStep eval ext (dispatchStep eval ext s Action.ToggleCompact)
        Action.ToggleCompact).shell = s.shell ∧
    (dispatchStep eval ext (dispatchStep eval ext s Action.ToggleCompact)
        Action.ToggleCompact).tb = s.tb ∧
    (dispatchStep eval ext (dispatchStep eval ext s Action.ToggleCompact)
        Action.ToggleCompact).status = s.status ∧
    (∀ y x, 1 ≤ y → y < s.grid.h → x < s.grid.w →
      (dispatchStep eval ext
        (dispatchStep eval ext s Action.ToggleCompact)
          Action.ToggleCompact).grid.cells y x = s.grid.cells y x) := by
  obtain ⟨hdoc1, htb1, hst1, hsh1, hw1, hh1, hgrid1⟩ :=
    toggleCompact_step eval ext s
  obtain ⟨hdoc2, htb2, hst2, hsh2, hw2, hh2, hgrid2⟩ :=
    toggleCompact_step eval ext (dispatchStep eval ext s Action.ToggleCompact)
  have hshell :
      (dispatchStep eval ext (dispatchStep eval ext s Action.ToggleCompact)
        Action.ToggleCompact).shell = s.shell := by
    rw [hsh2, hsh1, Shell.toggleCompact_toggleCompact]
  have harg :
      eval (dispatchStep eval ext s Action.ToggleCompact).doc
        (dispatchStep eval ext s Action.ToggleCompact).tb.Input
        (!(dispatchStep eval ext s Action.ToggleCompact).shell.compact)
        (dispatchStep eval ext s Action.ToggleCompact).shell.raw =
      some out0 := by
    rw [hdoc1, htb1, hsh1, Shell.toggleCompact_compact,
      Shell.toggleCompact_raw, Bool.not_not]
    exact h1
  rcases hgrid2 with ⟨hne, _⟩ | ⟨out, hsome, hg2⟩
  · rw [harg] at hne; exact absurd hne (by simp)
  · rw [harg] at hsome
    injection hsome with hout
    subst hout
    refine ⟨hshell, by rw [htb2, htb1], by rw [hst2, hst1], ?_⟩
    intro y x hy1 hyh hxw
    rw [hg2]
    rw [RenderResults_cells_region _ out0 y x hy1
      (by rw [hh1]; exact hyh) (by rw [hw1]; exact hxw)]
    rw [h2 y x hy1 hyh hxw]
    rw [RenderResults_cells_region g0 out0 y x hy1
      (by rw [hh]; exact hyh) (by rw [hw]; exact hxw)]
    rw [hw1, ← hw]

/-- C7 witness: the deterministic evaluator `evalOne` on the concrete
session whose grid shows the render of its output. -/
theorem C7_witness :
    evalOne sessionR.doc sessionR.tb.Input sessionR.shell.compact
      sessionR.shell.raw = some [49, 10] ∧
    grid0.w = sessionR.grid.w ∧
    grid0.h = sessionR.grid.h ∧
    ((dispatchStep evalOne extOk
        (dispatchStep evalOne extOk sessionR Action.ToggleCompact)
          Action.ToggleCompact).shell = sessionR.shell ∧
      (dispatchStep evalOne extOk
        (dispatchStep evalOne extOk sessionR Action.ToggleCompact)
          Action.ToggleCompact).tb = sessionR.tb ∧
      (dispatchStep evalOne extOk
        (dispatchStep evalOne extOk sessionR Action.ToggleCompact)
          Action.ToggleCompact).status = sessionR.status ∧
      (∀ y x, 1 ≤ y → y < sessionR.grid.h → x < sessionR.grid.w →
        (dispatchStep evalOne extOk
          (dispatchStep evalOne extOk sessionR Action.ToggleCompact)
            Action.ToggleCompact).grid.cells y x =
          sessionR.grid.cells y x)) :=
  ⟨rfl, (RenderResults_w grid0 [49, 10]).symm,
    (RenderResults_h grid0 [49, 10]).symm,
    C7_toggleCompact_twice_restores evalOne extOk sessionR grid0 [49, 10]
      rfl (RenderResults_w grid0 [49, 10]).symm
      (RenderResults_h grid0 [49, 10]).symm
      (fun _ _ _ _ _ => rfl)⟩

/-! ### UTF-8 round trip and encoded-line rendering -/

/-- Decoding the UTF-8 encoding of a valid Unicode scalar value at the
head of a byte stream yields the value back together with its byte
width. -/
theorem decodeRune_utf8Encode (c : Nat) (hv : ValidRune c)
    (rest : List Nat) :
    decodeRune (utf8Encode c ++ rest) = (c, (utf8Encode c).length) := by
  by_cases h1 : c < 0x80
  · have henc : utf8Encode c = [c] := by unfold utf8Encode; rw [if_pos h1]
    have hlen : (utf8Encode c).length = 1 := by rw [henc]; rfl
    rw [hlen, henc]
    simp only [List.cons_append, List.nil_append, decodeRune]
    rw [if_pos h1]
  · by_cases h2 : c < 0x800
    · have henc : utf8Encode c = [0xC0 + c / 64, 0x80 + c % 64] := by
        unfold utf8Encode; rw [if_neg h1, if_pos h2]
      have hlen : (utf8Encode c).length = 2 := by rw [henc]; rfl
      rw [hlen, henc]
      simp only [List.cons_append, List.nil_append, decodeRune]
      split_ifs
      all_goals try (exfalso; omega)
      all_goals
        have hval : (0xC0 + c / 64 - 0xC0) * 64 + (0x80 + c % 64 - 0x80)
            = c := by omega
      all_goals rw [hval]
    · by_cases h3 : c < 0x10000
      · have hns : ¬(0xD800 ≤ c ∧ c < 0xE000) := by
          unfold ValidRune at hv; omega
        have henc : utf8Encode c =
            [0xE0 + c / 4096, 0x80 + (c / 64) % 64, 0x80 + c % 64] := by
          unfold utf8Encode; rw [if_neg h1, if_neg h2, if_neg hns, if_pos h3]
        have hlen : (utf8Encode c).length = 3 := by rw [henc]; rfl
        rw [hlen, henc]
        simp only [List.cons_append, List.nil_append, decodeRune,
          accept3lo, accept3hi]
        split_ifs
        all_goals try (exfalso; omega)
        all_goals
          have hval : (0xE0 + c / 4096 - 0xE0) * 4096 +
              (0x80 + (c / 64) % 64 - 0x80) * 64 +
              (0x80 + c % 64 - 0x80) = c := by omega
        all_goals rw [hval]
      · by_cases h4 : c < 0x110000
        · have hns : ¬(0xD800 ≤ c ∧ c < 0xE000) := by omega
          have henc : utf8Encode c =
              [0xF0 + c / 262144, 0x80 + (c / 4096) % 64,
               0x80 + (c / 64) % 64, 0x80 + c % 64] := by
            unfold utf8Encode
            rw [if_neg h1, if_neg h2, if_neg hns, if_neg (by omega),
              if_pos h4]
          have hlen : (utf8Encode c).length = 4 := by rw [henc]; rfl
          rw [hlen, henc]
          simp only [List.cons_append, List.nil_append, decodeRune,
            accept4lo, accept4hi]
          split_ifs
          all_goals try (exfalso; omega)
          all_goals
            have hval : (0xF0 + c / 262144 - 0xF0) * 262144 +
                (0x80 + (c / 4096) % 64 - 0x80) * 4096 +
                (0x80 + (c / 64) % 64 - 0x80) * 64 +
                (0x80 + c % 64 - 0x80) = c := by omega
          all_goals rw [hval]
        · exfalso; unfold ValidRune at hv; omega

theorem utf8Encode_length_pos (c : Nat) : 1 ≤ (utf8Encode c).length := by
  unfold utf8Encode runeErrorBytes
  split_ifs <;> simp

/-- No byte of the UTF-8 encoding of a non-newline rune is the newline
byte (multi-byte encodings consist of bytes at or above 0x80). -/
theorem utf8Encode_no_newline (c : Nat) (h10 : c ≠ 10) :
    ∀ b ∈ utf8Encode c, b ≠ 10 := by
  intro b hb
  unfold utf8Encode runeErrorBytes at hb
  split_ifs at hb <;> simp only [List.mem_cons, List.mem_singleton,
    List.not_mem_nil, or_false] at hb
  all_goals rcases hb with hb | hb | hb | hb | hb <;> omega

theorem utf8EncodeAll_no_newline (l : List Nat) (h : ∀ c ∈ l, c ≠ 10) :
    ∀ b ∈ utf8EncodeAll l, b ≠ 10 := by
  induction l with
  | nil => intro b hb; simp [utf8EncodeAll] at hb
  | cons c cs ih =>
    intro b hb
    rw [utf8EncodeAll, List.mem_append] at hb
    rcases hb with hb | hb
    · exact utf8Encode_no_newline c (h c (by simp)) b hb
    · exact ih (fun d hd => h d (by simp [hd])) b hb

/-- Splitting a stream whose first line is made of non-newline bytes
followed by the newline terminator. -/
theorem splitLinesAux_no_newline (pre : List Nat)
    (hpre : ∀ b ∈ pre, b ≠ 10) :
    ∀ (acc rest : List Nat),
      splitLinesAux acc (pre ++ 10 :: rest) =
        (acc ++ pre ++ [10]) :: splitLinesAux [] rest := by
  induction pre with
  | nil =>
    intro acc rest
    simp [splitLinesAux]
  | cons b pre ih =>
    intro acc rest
    have hb : b ≠ 10 := hpre b (by simp)
    rw [List.cons_append, splitLinesAux]
    rw [if_neg hb]
    rw [ih (fun d hd => hpre d (by simp [hd])) (acc ++ [b]) rest]
    simp

/-- Splitting rows as `RenderResults` does recovers exactly the encoded lines of
a newline-terminated stream. -/
theorem splitLines_streamOfLines (lines : List (List Nat))
    (h : ∀ l ∈ lines, ∀ c ∈ l, c ≠ 10) :
    splitLines (streamOfLines lines) =
      lines.map (fun l => utf8EncodeAll l ++ [10]) := by
  induction lines with
  | nil => rfl
  | cons l ls ih =>
    rw [streamOfLines]
    unfold splitLines
    rw [splitLinesAux_no_newline (utf8EncodeAll l)
      (utf8EncodeAll_no_newline l (h l (by simp))) [] (streamOfLines ls)]
    rw [List.nil_append, List.map_cons]
    have := ih (fun l' hl' => h l' (by simp [hl']))
    unfold splitLines at this
    rw [this]

/-- One step of the rune-writing lookup over an encoded rune at the head
of the byte list. -/
theorem lineWriteAt_encStep (w x' xPos : Nat) (c : Nat) (hv : ValidRune c)
    (X : List Nat) :
    lineWriteAt w x' xPos (utf8Encode c ++ X) =
      if x' = xPos ∧ xPos < w then some c
      else lineWriteAt w x' (xPos + (utf8Encode c).length) X := by
  cases henc : utf8Encode c with
  | nil =>
    exfalso
    have := utf8Encode_length_pos c
    rw [henc] at this
    simp at this
  | cons b bs =>
    rw [List.cons_append, lineWriteAt]
    have hdec : decodeRune (b :: (bs ++ X)) = (c, (b :: bs).length) := by
      have h0 := decodeRune_utf8Encode c hv X
      rw [henc, List.cons_append] at h0
      exact h0
    simp only [hdec, List.length_cons, Nat.add_sub_cancel, List.drop_left]

/-- The rune-writing lookup on an encoded line finds, at the byte offset
of the `k`-th rune, exactly that rune. -/
theorem lineWriteAt_encoded (w : Nat) :
    ∀ (l : List Nat), (∀ c ∈ l, ValidRune c) →
      ∀ (k xPos : Nat) (tail : List Nat), k < l.length →
        xPos + (utf8EncodeAll (l.take k)).length < w →
        lineWriteAt w (xPos + (utf8EncodeAll (l.take k)).length) xPos
          (utf8EncodeAll l ++ tail) = some (l.getD k 0) := by
  intro l
  induction l with
  | nil => intro _ k _ _ hk; simp at hk
  | cons c cs ih =>
    intro hv k xPos tail hk hcol
    cases k with
    | zero =>
      simp only [List.take_zero, utf8EncodeAll, List.length_nil,
        Nat.add_zero] at hcol ⊢
      rw [List.append_assoc, lineWriteAt_encStep w xPos xPos c
        (hv c (by simp)) _]
      rw [if_pos ⟨rfl, hcol⟩]
      rfl
    | succ k =>
      simp only [List.take_succ_cons, utf8EncodeAll, List.length_append]
        at hcol ⊢
      have hpos := utf8Encode_length_pos c
      rw [List.append_assoc, lineWriteAt_encStep w _ xPos c
        (hv c (by simp)) _]
      rw [if_neg (by omega :
        ¬(xPos + ((utf8Encode c).length +
            (utf8EncodeAll (cs.take k)).length) = xPos ∧ xPos < w))]
      have hshift :
          xPos + ((utf8Encode c).length +
              (utf8EncodeAll (cs.take k)).length) =
            (xPos + (utf8Encode c).length) +
              (utf8EncodeAll (cs.take k)).length := by omega
      rw [hshift]
      rw [ih (fun d hd => hv d (by simp [hd])) k
        (xPos + (utf8Encode c).length) tail (by simpa using hk)
        (by omega)]
      rfl

/-- The byte offset of rune `k` lies strictly inside the encoded line. -/
theorem utf8EncodeAll_take_lt :
    ∀ (l : List Nat) (k : Nat), k < l.length →
      (utf8EncodeAll (l.take k)).length < (utf8EncodeAll l).length := by
  intro l
  induction l with
  | nil => intro k hk; simp at hk
  | cons c cs ih =>
    intro k hk
    cases k with
    | zero =>
      simp only [List.take_zero, utf8EncodeAll, List.length_nil,
        List.length_append]
      have := utf8Encode_length_pos c
      omega
    | succ k =>
      simp only [List.take_succ_cons, utf8EncodeAll, List.length_append]
      have := ih k (by simpa using hk)
      omega

/-- C8. Rendering a byte stream of N newline-terminated lines of valid
text, each encoded line no wider than the grid, writes exactly the
lines into rows 1..N — the cell at the byte offset of the `k`-th rune
of line `i` holds that rune — and leaves every visible cell in the
rows beyond row N cleared. -/
theorem C8_renderResults_writes_lines (g : Grid)
    (lines : List (List Nat))
    (hv : ∀ l ∈ lines, ∀ c ∈ l, ValidRune c ∧ c ≠ 10)
    (hwide : ∀ l ∈ lines, (utf8EncodeAll l).length ≤ g.w) :
    (∀ i, i < lines.length → 1 + i < g.h →
      ∀ k, k < (lines.getD i []).length →
        (Termbox.RenderResults g (streamOfLines lines)).cells (1 + i)
          ((utf8EncodeAll ((lines.getD i []).take k)).length) =
          (lines.getD i []).getD k 0) ∧
    (∀ y, lines.length < y → y < g.h → ∀ x, x < g.w →
      (Termbox.RenderResults g (streamOfLines lines)).cells y x = 0) := by
  have hsplit := splitLines_streamOfLines lines
    (fun l hl c hc => (hv l hl c hc).2)
  constructor
  · intro i hi hih k hk
    have hli : lines.getD i [] = lines[i] := List.getD_eq_getElem lines [] hi
    have hmem : lines.getD i [] ∈ lines := by
      rw [hli]; exact List.getElem_mem hi
    have hoff : (utf8EncodeAll ((lines.getD i []).take k)).length < g.w :=
      lt_of_lt_of_le (utf8EncodeAll_take_lt (lines.getD i []) k hk)
        (hwide (lines.getD i []) hmem)
    rw [RenderResults_cells_region g _ (1 + i) _ (by omega) hih hoff]
    rw [hsplit]
    rw [if_pos (by simp only [List.length_map]; omega)]
    have hidx : 1 + i - 1 = i := by omega
    rw [hidx]
    have hgetmap :
        (lines.map (fun l => utf8EncodeAll l ++ [10])).getD i [] =
          utf8EncodeAll (lines.getD i []) ++ [10] := by
      rw [List.getD_eq_getElem _ _ (by simpa using hi), List.getElem_map,
        hli]
    rw [hgetmap]
    have hwrite := lineWriteAt_encoded g.w (lines.getD i [])
      (fun c hc => (hv (lines.getD i []) hmem c hc).1) k 0 [10] hk
      (by simpa using hoff)
    rw [Nat.zero_add] at hwrite
    rw [hwrite]
    rfl
  · intro y hy hyh x hx
    rw [RenderResults_cells_region g _ y x (by omega) hyh hx]
    rw [hsplit]
    rw [if_neg (by simp only [List.length_map]; omega)]

/-- C8 witness: the single line `"1"` on the concrete 10 × 5 grid. -/
theorem C8_witness :
    (∀ l ∈ [[49]], ∀ c ∈ l, ValidRune c ∧ c ≠ 10) ∧
    (∀ l ∈ [[49]], (utf8EncodeAll l).length ≤ grid0.w) ∧
    ((∀ i, i < ([[49]] : List (List Nat)).length → 1 + i < grid0.h →
      ∀ k, k < (([[49]] : List (List Nat)).getD i []).length →
        (Termbox.RenderResults grid0
          (streamOfLines [[49]])).cells (1 + i)
          ((utf8EncodeAll
            ((([[49]] : List (List Nat)).getD i []).take k)).length) =
          (([[49]] : List (List Nat)).getD i []).getD k 0) ∧
    (∀ y, ([[49]] : List (List Nat)).length < y → y < grid0.h →
      ∀ x, x < grid0.w →
        (Termbox.RenderResults grid0 (streamOfLines [[49]])).cells y x =
          0)) :=
  ⟨by decide, by decide,
    C8_renderResults_writes_lines grid0 [[49]] (by decide) (by decide)⟩

/-! ### The original-document invariant -/

/-- No dispatch case ever writes the `doc` field. -/
theorem dispatchStep_doc (eval : Eval) (ext : Ext) (s : Session)
    (a : Action) : (dispatchStep eval ext s a).doc = s.doc := by
  cases a <;> simp only [dispatchStep, processCall, Session.logIf] <;>
    repeat' split
  all_goals rfl

/-- Every evaluator call recorded by one dispatch is either an old call
or carries the session's document and its current program text. -/
theorem dispatchStep_calls (eval : Eval) (ext : Ext) (s : Session)
    (a : Action) :
    ∀ c ∈ (dispatchStep eval ext s a).calls,
      c ∈ s.calls ∨ (c.doc = s.doc ∧ c.program = s.tb.Input) := by
  cases a <;> simp only [dispatchStep, processCall, Session.logIf] <;>
    repeat' split
  all_goals intro c hc
  all_goals
    first
      | exact Or.inl hc
      | (simp only [List.mem_append, List.mem_singleton] at hc
         rcases hc with hc | rfl
         · exact Or.inl hc
         · exact Or.inr ⟨rfl, rfl⟩)

/-- C9. The evaluator is only ever invoked with the original document
bytes and the current program text.  First conjunct: one dispatch never
changes the document and records only calls carrying the session's
document together with the program text current when the action was
handled.  Second conjunct: over any action sequence, if every call so
far used the session's document, every call ever recorded uses it, and
it is the document the session started with.  Third conjunct: the
session built at startup satisfies that starting condition, with its
single initial call on the startup document. -/
theorem C9_evaluator_uses_original_document :
    (∀ (eval : Eval) (ext : Ext) (s : Session) (a : Action),
      (dispatchStep eval ext s a).doc = s.doc ∧
      (∀ c ∈ (dispatchStep eval ext s a).calls,
        c ∈ s.calls ∨ (c.doc = s.doc ∧ c.program = s.tb.Input))) ∧
    (∀ (eval : Eval) (ext : Ext) (s : Session) (as : List Action),
      (∀ c ∈ s.calls, c.doc = s.doc) →
      ((runActions eval ext s as).doc = s.doc ∧
        ∀ c ∈ (runActions eval ext s as).calls, c.doc = s.doc)) ∧
    (∀ (eval : Eval) (doc prog : List Nat) (co ra dbg : Bool)
      (w h : Nat) (s : Session),
      startSession eval doc prog co ra dbg w h = some s →
      s.doc = doc ∧ ∀ c ∈ s.calls, c.doc = doc) := by
  refine ⟨fun eval ext s a =>
    ⟨dispatchStep_doc eval ext s a, dispatchStep_calls eval ext s a⟩,
    ?_, ?_⟩
  · intro eval ext s as
    induction as generalizing s with
    | nil => intro hs; exact ⟨rfl, hs⟩
    | cons a as ih =>
      intro hs
      rw [runActions, List.foldl_cons]
      by_cases hst : s.status = Status.running
      · rw [if_pos hst]
        have hdoc := dispatchStep_doc eval ext s a
        have hcalls := dispatchStep_calls eval ext s a
        have hs' : ∀ c ∈ (dispatchStep eval ext s a).calls,
            c.doc = (dispatchStep eval ext s a).doc := by
          intro c hc
          rw [hdoc]
          rcases hcalls c hc with hmem | ⟨hd, _⟩
          · exact hs c hmem
          · exact hd
        have := ih (dispatchStep eval ext s a) hs'
        rw [runActions] at this
        exact ⟨by rw [this.1, hdoc],
          fun c hc => by rw [← hdoc]; exact this.2 c hc⟩
      · rw [if_neg hst]
        have := ih s hs
        rw [runActions] at this
        exact this
  · intro eval doc prog co ra dbg w h s hstart
    unfold startSession at hstart
    cases heval : eval doc prog co ra with
    | none => rw [heval] at hstart; simp at hstart
    | some out =>
      rw [heval] at hstart
      simp only [Option.some.injEq] at hstart
      subst hstart
      refine ⟨rfl, ?_⟩
      intro c hc
      simp only [List.mem_singleton] at hc
      subst hc
      rfl

/-- C9 witness: the run-level invariant on the concrete session (whose
call trace is empty) over one `Submit`, and the startup session built
by `startSession` for `evalOne`. -/
theorem C9_witness :
    (∀ c ∈ session0.calls, c.doc = session0.doc) ∧
    ((runActions evalOne extOk session0 [Action.Submit]).doc =
        session0.doc ∧
      ∀ c ∈ (runActions evalOne extOk session0 [Action.Submit]).calls,
        c.doc = session0.doc) ∧
    startSession evalOne doc0 [46] false false true 10 5 =
      some sessionStart ∧
    (sessionStart.doc = doc0 ∧ ∀ c ∈ sessionStart.calls, c.doc = doc0) :=
  ⟨fun c hc => absurd hc (List.not_mem_nil c),
    C9_evaluator_uses_original_document.2.1 evalOne extOk session0
      [Action.Submit] (fun c hc => absurd hc (List.not_mem_nil c)),
    rfl,
    C9_evaluator_uses_original_document.2.2 evalOne doc0 [46] false false
      true 10 5 sessionStart rfl⟩

/-! ### The NUL-freedom invariant -/

/-- No byte of the UTF-8 encoding of a nonzero rune is the NUL byte. -/
theorem utf8Encode_no_zero (c : Nat) (h0 : c ≠ 0) :
    ∀ b ∈ utf8Encode c, b ≠ 0 := by
  intro b hb
  unfold utf8Encode runeErrorBytes at hb
  split_ifs at hb <;> simp only [List.mem_cons, List.mem_singleton,
    List.not_mem_nil, or_false] at hb
  all_goals rcases hb with hb | hb | hb | hb | hb <;> omega

theorem NoNul_append (l1 l2 : List Nat) (h1 : NoNul l1) (h2 : NoNul l2) :
    NoNul (l1 ++ l2) := fun b hb =>
  (List.mem_append.mp hb).elim (h1 b) (h2 b)

theorem NoNul_dropLast (l : List Nat) (h : NoNul l) : NoNul l.dropLast := by
  intro b hb
  rw [List.dropLast_eq_take] at hb
  exact h b (List.take_subset _ _ hb)

theorem UpdateInput_noNul (t : Termbox) (hI : NoNul t.Input)
    (hS : NoNul t.SavePath) :
    NoNul (t.UpdateInput).Input ∧ NoNul (t.UpdateInput).SavePath := by
  unfold Termbox.UpdateInput
  split
  case isTrue h =>
    exact ⟨NoNul_append _ _ hI (utf8Encode_no_zero t.newInput h), hS⟩
  case isFalse h => exact ⟨hI, hS⟩

theorem UpdateSaveInput_noNul (t : Termbox) (hI : NoNul t.Input)
    (hS : NoNul t.SavePath) :
    NoNul (t.UpdateSaveInput).Input ∧ NoNul (t.UpdateSaveInput).SavePath := by
  unfold Termbox.UpdateSaveInput
  split
  case isTrue h =>
    exact ⟨hI, NoNul_append _ _ hS (utf8Encode_no_zero t.newInput h)⟩
  case isFalse h => exact ⟨hI, hS⟩

theorem UpdateInputBackspace_noNul (t : Termbox) (hI : NoNul t.Input)
    (hS : NoNul t.SavePath) :
    NoNul (t.UpdateInputBackspace).Input ∧
    NoNul (t.UpdateInputBackspace).SavePath := by
  unfold Termbox.UpdateInputBackspace
  split
  · exact ⟨hI, hS⟩
  · exact ⟨NoNul_dropLast _ hI, hS⟩

theorem UpdateSaveInputBackspace_noNul (t : Termbox) (hI : NoNul t.Input)
    (hS : NoNul t.SavePath) :
    NoNul (t.UpdateSaveInputBackspace).Input ∧
    NoNul (t.UpdateSaveInputBackspace).SavePath := by
  unfold Termbox.UpdateSaveInputBackspace
  split
  · exact ⟨hI, hS⟩
  · exact ⟨hI, NoNul_dropLast _ hS⟩

/-- No dispatch case can put a NUL byte into either text buffer. -/
theorem dispatchStep_noNul (eval : Eval) (ext : Ext) (s : Session)
    (a : Action) (hI : NoNul s.tb.Input) (hS : NoNul s.tb.SavePath) :
    NoNul (dispatchStep eval ext s a).tb.Input ∧
    NoNul (dispatchStep eval ext s a).tb.SavePath := by
  cases a <;> (simp only [dispatchStep, processCall]; repeat' split)
  all_goals
    first
      | exact ⟨hI, hS⟩
      | exact UpdateInput_noNul s.tb hI hS
      | exact UpdateSaveInput_noNul s.tb hI hS
      | exact UpdateInputBackspace_noNul s.tb hI hS
      | exact UpdateSaveInputBackspace_noNul s.tb hI hS

theorem runActions_noNul (eval : Eval) (ext : Ext) :
    ∀ (as : List Action) (s : Session),
      NoNul s.tb.Input → NoNul s.tb.SavePath →
      NoNul (runActions eval ext s as).tb.Input ∧
      NoNul (runActions eval ext s as).tb.SavePath := by
  intro as
  induction as with
  | nil => intro s hI hS; exact ⟨hI, hS⟩
  | cons a as ih =>
    intro s hI hS
    rw [runActions, List.foldl_cons]
    by_cases hst : s.status = Status.running
    · rw [if_pos hst]
      obtain ⟨hI', hS'⟩ := dispatchStep_noNul eval ext s a hI hS
      have := ih (dispatchStep eval ext s a) hI' hS'
      rw [runActions] at this
      exact this
    · rw [if_neg hst]
      have := ih s hI hS
      rw [runActions] at this
      exact this

theorem uiRun_noNul (eval : Eval) (ext : Ext) :
    ∀ (evs : List KeyEvent) (s : Session),
      NoNul s.tb.Input → NoNul s.tb.SavePath →
      NoNul (uiRun eval ext s evs).tb.Input ∧
      NoNul (uiRun eval ext s evs).tb.SavePath := by
  intro evs
  induction evs with
  | nil => intro s hI hS; exact ⟨hI, hS⟩
  | cons ev rest ih =>
    intro s hI hS
    rw [uiRun]
    split
    · exact ⟨hI, hS⟩
    · obtain ⟨h1, h2⟩ := runActions_noNul eval ext
        (classifyKey s.tb.SaveInputMode s.tb.newInput ev).2.1
        { s with
            tb := { s.tb with
              newInput :=
                (classifyKey s.tb.SaveInputMode s.tb.newInput ev).1 }
            debugLog := s.logIf
              (classifyKey s.tb.SaveInputMode s.tb.newInput ev).2.2 }
        hI hS
      exact ih _ h1 h2

set_option maxHeartbeats 1000000 in
/-- C10. First conjunct: the key classifier never stages the zero rune
(the register either keeps its previous value or receives a nonzero
character: the `KeySpace` case stages the space character and the
default case is guarded by `ev.Ch != 0`).  Second conjunct: the commit
operations are no-ops when the staging register holds the zero rune.
Third conjunct: over every sequence of key events, buffers that start
NUL-free stay NUL-free. -/
theorem C10_nul_never_enters_buffers :
    (∀ (m : Bool) (st : Nat) (ev : KeyEvent),
      (classifyKey m st ev).1 ≠ 0 ∨ (classifyKey m st ev).1 = st) ∧
    (∀ t : Termbox, t.newInput = 0 →
      t.UpdateInput = t ∧ t.UpdateSaveInput = t) ∧
    (∀ (eval : Eval) (ext : Ext) (s : Session) (evs : List KeyEvent),
      NoNul s.tb.Input → NoNul s.tb.SavePath →
      NoNul (uiRun eval ext s evs).tb.Input ∧
      NoNul (uiRun eval ext s evs).tb.SavePath) := by
  refine ⟨?_, ?_,
    fun eval ext s evs hI hS => uiRun_noNul eval ext evs s hI hS⟩
  · intro m st ev
    unfold classifyKey
    split_ifs <;>
      first
        | exact Or.inr rfl
        | exact Or.inl (by omega)
  · intro t h
    constructor
    · unfold Termbox.UpdateInput
      rw [if_neg (by simp [h])]
    · unfold Termbox.UpdateSaveInput
      rw [if_neg (by simp [h])]

/-- C10 witness: a typed letter `"a"` after the concrete session, the
concrete commit no-op, and the concrete classifier instance. -/
theorem C10_witness :
    ((classifyKey false 0 ⟨0, 97⟩).1 ≠ 0 ∨
      (classifyKey false 0 ⟨0, 97⟩).1 = 0) ∧
    tb0.newInput = 0 ∧
    (tb0.UpdateInput = tb0 ∧ tb0.UpdateSaveInput = tb0) ∧
    NoNul session0.tb.Input ∧
    NoNul session0.tb.SavePath ∧
    (NoNul (uiRun evalOne extOk session0 [⟨0, 97⟩]).tb.Input ∧
      NoNul (uiRun evalOne extOk session0 [⟨0, 97⟩]).tb.SavePath) :=
  ⟨C10_nul_never_enters_buffers.1 false 0 ⟨0, 97⟩, rfl,
    C10_nul_never_enters_buffers.2.1 tb0 rfl, by decide, by decide,
    C10_nul_never_enters_buffers.2.2 evalOne extOk session0 [⟨0, 97⟩]
      (by decide) (by decide)⟩

/-- C6 counterexample. With `"x"` already typed into the save path, a
further `EnterSavePrompt` leaves `SavePath = "x"`, not the empty string
claimed: `main.go` lines 141-147 set `display.SaveInputMode = true` and
re-render, but never reset `display.SavePath`. -/
theorem C6_counterexample_savePrompt_keeps_path :
    (dispatchStep evalOne extOk sessionSave Action.SavePrompt).tb.SavePath
      = [120] ∧
    (dispatchStep evalOne extOk sessionSave
      Action.SavePrompt).tb.SaveInputMode = true ∧
    ([120] : List Nat) ≠ [] :=
  ⟨rfl, rfl, by decide⟩

/-- C6 amended. Handling `EnterSavePrompt` switches the input mode to
SavePath and leaves the `savePath` buffer (and the program buffer)
unchanged; in particular previously typed save-path characters persist
across a second `EnterSavePrompt`. -/
theorem C6_savePrompt_sets_mode_keeps_path (eval : Eval) (ext : Ext)
    (s : Session) :
    (dispatchStep eval ext s Action.SavePrompt).tb.SaveInputMode = true ∧
    (dispatchStep eval ext s Action.SavePrompt).tb.SavePath =
      s.tb.SavePath ∧
    (dispatchStep eval ext s Action.SavePrompt).tb.Input = s.tb.Input := by
  simp [dispatchStep]

end JqLive
